import Mathlib

/-!
Verification of the jaq core filter evaluator (jaq-core/src/filter.rs and
jaq-core/src/rc_list.rs) against its natural-language specification.

The filter AST, the run evaluator, the update evaluator, substitution and the
persistent context list are translated from the source.  The value model
(val.rs), the error type, the context enum (lib.rs), the path parts (path.rs)
and the binary operators (jaq-parse) are not part of the given sources; they
are modelled from the specification, as marked on each such definition.
-/

namespace Jaq

/-- Modelled from the spec: the value type of val.rs, which is not under src/.
Section 3 lists the variants Null, Bool, Int, Float, Str, Arr, Obj.  The
Float payload (an IEEE-754 double) is outside this embedding; it is kept as
an uninterpreted token so that the filter AST and substitution stay complete, but no
claim depends on floating-point behaviour. -/
inductive Val where
  | Null : Val
  | Bool (b : Bool) : Val
  | Int (n : Int) : Val
  | Float (x : Int) : Val
  | Str (s : String) : Val
  | Arr (xs : List Val) : Val
  | Obj (kvs : List (String × Val)) : Val

instance : Inhabited Val := ⟨Val.Null⟩

/-- Modelled from the spec: the error taxonomy of section 7 (the Error type of
lib.rs is not under src/): value-thrown, type, indexing, arithmetic, parse and
string-message errors.  The extra constructor `bug` stands for the two panics
in filter.rs (the unsubstituted-argument panic at line 281 and the todo branch
of the update evaluator), which have no value-level representation. -/
inductive Error where
  | Val (v : Val) : Error
  | Typ (msg : String) : Error
  | Index (msg : String) : Error
  | Math (msg : String) : Error
  | Parse (msg : String) : Error
  | Str (msg : String) : Error
  | bug : Error

/-- Result of one stream element: `Ok(Val)` or `Err(Error)` (section 3). -/
abbrev ValR := Except Error Val

instance : Inhabited ValR := ⟨Except.ok Val.Null⟩

/-- Translation of Rust `collect::<Result<Vec<_>, _>>()`: collect a list of
results into a result of a list, stopping at the first error. -/
def collectExcept : List (Except ε α) → Except ε (List α)
  | [] => Except.ok []
  | x :: xs => do
    let v ← x
    let vs ← collectExcept xs
    pure (v :: vs)

/-- Kind rank of a value: Null < Bool < numbers < Str < Arr < Obj (section 3).
Int and Float share the numeric band; the Float payload is uninterpreted here. -/
def Val.rank : Val → Nat
  | .Null => 0
  | .Bool _ => 1
  | .Int _ => 2
  | .Float _ => 2
  | .Str _ => 3
  | .Arr _ => 4
  | .Obj _ => 5

mutual

/-- Modelled from the spec: the total order on values of section 3, defined
lexicographically by kind rank and then by natural order within a kind;
arrays compare lexicographically, objects by their insertion-ordered pairs.
Int-versus-Float comparison is left at the kind-rank level because Float
payloads are uninterpreted in this embedding. -/
def Val.cmp : Val → Val → Ordering
  | .Null, .Null => .eq
  | .Bool a, .Bool b => compare a b
  | .Int a, .Int b => compare a b
  | .Float a, .Float b => compare a b
  | .Str a, .Str b => compare a b
  | .Arr a, .Arr b => Val.cmpList a b
  | .Obj a, .Obj b => Val.cmpKvs a b
  | a, b => compare a.rank b.rank

/-- Lexicographic comparison of value lists. -/
def Val.cmpList : List Val → List Val → Ordering
  | [], [] => .eq
  | [], _ :: _ => .lt
  | _ :: _, [] => .gt
  | x :: xs, y :: ys => (Val.cmp x y).then (Val.cmpList xs ys)

/-- Lexicographic comparison of key-value lists (key first, then value). -/
def Val.cmpKvs : List (String × Val) → List (String × Val) → Ordering
  | [], [] => .eq
  | [], _ :: _ => .lt
  | _ :: _, [] => .gt
  | (k1, v1) :: xs, (k2, v2) :: ys =>
    ((compare k1 k2).then (Val.cmp v1 v2)).then (Val.cmpKvs xs ys)

end

/-- Boolean order test derived from the total order. -/
def valLe (a b : Val) : Bool :=
  match Val.cmp a b with
  | .gt => false
  | _ => true

/-- Stable insertion into a sorted list: the new element goes after all
existing elements that are less than or equal to it. -/
def insertSorted (le : α → α → Bool) (x : α) : List α → List α
  | [] => [x]
  | y :: ys => if le y x then y :: insertSorted le x ys else x :: y :: ys

/-- Stable insertion sort, used for the Sort, SortBy and Keys intrinsics. -/
def sortByStable (le : α → α → Bool) : List α → List α
  | [] => []
  | x :: xs => insertSorted le x (sortByStable le xs)

/-- Modelled from the spec: the context type of lib.rs, which is not under
src/.  Section 3: an immutable singly-linked stack Nil or Cons(Val, Ctx);
filter.rs constructs it with Ctx::Cons and reads it with skip and get. -/
inductive Ctx where
  | nil : Ctx
  | cons (v : Val) (tail : Ctx) : Ctx

/-- Modelled from the spec: ctx.skip(n) drops n frames, stopping at nil. -/
def Ctx.skip : Nat → Ctx → Ctx
  | 0, c => c
  | _ + 1, .nil => .nil
  | n + 1, .cons _ t => Ctx.skip n t

/-- Head of the context stack. -/
def Ctx.head : Ctx → Option Val
  | .nil => none
  | .cons v _ => some v

/-- Modelled from the spec: ctx.get(n) = skip(n).head() (section 4.4). -/
def Ctx.get (n : Nat) (c : Ctx) : Option Val :=
  (Ctx.skip n c).head

/-- Translation of the persistent list of rc_list.rs.  The reference-counted
pointer of the source only realizes sharing; the functional content is the
cons-list itself, so Rc indirections are dropped. -/
inductive RcList (α : Type u) where
  | nil : RcList α
  | cons (x : α) (xs : RcList α) : RcList α

/-- rc_list.rs List::new(): the empty list. -/
def RcList.new : RcList α := .nil

/-- rc_list.rs List::head(): the element most recently added, if any. -/
def RcList.head : RcList α → Option α
  | .nil => none
  | .cons x _ => some x

/-- rc_list.rs List::skip(n): the loop advances to the tail n times and stops
early at Nil, so skipping past the end returns the empty list. -/
def RcList.skip : Nat → RcList α → RcList α
  | 0, l => l
  | _ + 1, .nil => .nil
  | n + 1, .cons _ xs => RcList.skip n xs

/-- rc_list.rs List::get(n): defined in the source as self.skip(n).head(). -/
def RcList.get (l : RcList α) (n : Nat) : Option α :=
  (RcList.skip n l).head

/-- rc_list.rs List::iter() collected: most recently added element first. -/
def RcList.toList : RcList α → List α
  | .nil => []
  | .cons x xs => x :: RcList.toList xs

theorem RcList.toList_skip (n : Nat) (l : RcList α) :
    (RcList.skip n l).toList = l.toList.drop n := by
  induction n generalizing l with
  | zero => cases l <;> simp [RcList.skip]
  | succ n ih => cases l <;> simp [RcList.skip, RcList.toList, ih]

theorem RcList.skip_of_le (n : Nat) (l : RcList α) (h : l.toList.length ≤ n) :
    RcList.skip n l = RcList.nil := by
  induction n generalizing l with
  | zero =>
    cases l with
    | nil => simp [RcList.skip]
    | cons x xs => simp [RcList.toList] at h
  | succ n ih =>
    cases l with
    | nil => simp [RcList.skip]
    | cons x xs =>
      simp only [RcList.toList, List.length_cons, Nat.succ_le_succ_iff] at h
      simpa [RcList.skip] using ih xs h

theorem RcList.get_toList (n : Nat) (l : RcList α) :
    l.get n = l.toList.get? n := by
  induction n generalizing l with
  | zero => cases l <;> simp [RcList.get, RcList.skip, RcList.head, RcList.toList]
  | succ n ih =>
    cases l with
    | nil => simp [RcList.get, RcList.skip, RcList.head, RcList.toList]
    | cons x xs => simpa [RcList.get, RcList.skip, RcList.toList] using ih xs

/-- C7: for the persistent context stack of rc_list.rs, skip(n) returns the
tail with n frames dropped and returns the empty list when n is at least the
number of elements; get(n) equals skip(n).head(), i.e. the n-th element from
the most recently added, or None when no such element exists. -/
theorem claim_C7_rc_list_skip_get (l : RcList α) (n : Nat) :
    (RcList.skip n l).toList = l.toList.drop n
    ∧ (l.toList.length ≤ n → RcList.skip n l = RcList.nil)
    ∧ l.get n = (RcList.skip n l).head
    ∧ l.get n = l.toList.get? n :=
  ⟨RcList.toList_skip n l, RcList.skip_of_le n l, rfl, RcList.get_toList n l⟩

/-- Witness for C7 at a concrete two-element list and n = 3. -/
theorem claim_C7_witness :
    (RcList.skip 3 (RcList.cons (0 : Nat) (RcList.cons 1 .nil))).toList
        = (RcList.cons (0 : Nat) (RcList.cons 1 .nil)).toList.drop 3
    ∧ RcList.skip 3 (RcList.cons (0 : Nat) (RcList.cons 1 .nil)) = RcList.nil
    ∧ (RcList.cons (0 : Nat) (RcList.cons 1 .nil)).get 3 = none := by
  have h := claim_C7_rc_list_skip_get (RcList.cons (0 : Nat) (RcList.cons 1 .nil)) 3
  refine ⟨h.1, h.2.1 (by simp [RcList.toList]), ?_⟩
  rw [h.2.2.2]
  simp [RcList.toList]

/-- Modelled from the spec: truthiness as used by Alt, Logic and IfThenElse
(val.rs is not under src/).  In the jq dialect of section 4.1, Null and false
are falsy and every other value is truthy. -/
def as_bool : Val → Bool
  | .Null => false
  | .Bool b => b
  | _ => true

/-- Modelled from the spec: coercion to integer, used by Limit and Range.
Float payloads are uninterpreted in this embedding, so only Int coerces. -/
def as_int : Val → Except Error Int
  | .Int n => .ok n
  | _ => .error (.Typ "integer expected")

/-- Modelled from the spec: Val::str, the string projection used for object
keys; a type error on any non-string value (section 4.1). -/
def str_of : Val → Except Error String
  | .Str s => .ok s
  | _ => .error (.Typ "string expected")

/-- Modelled from the spec: numeric negation for the Neg node. -/
def neg_val : Val → ValR
  | .Int n => .ok (.Int (-n))
  | .Float x => .ok (.Float x)
  | _ => .error (.Math "cannot negate value")

/-- Modelled from the spec: Length is a kind-dispatched size (section 4.1). -/
def len_val : Val → ValR
  | .Null => .ok (.Int 0)
  | .Bool _ => .error (.Typ "boolean has no length")
  | .Int n => .ok (.Int n.natAbs)
  | .Float x => .ok (.Float x)
  | .Str s => .ok (.Int s.length)
  | .Arr xs => .ok (.Int xs.length)
  | .Obj kvs => .ok (.Int kvs.length)

/-- Modelled from the spec: Keys yields sorted string keys of an object or the
integer indices of an array (section 4.1). -/
def keys_val : Val → Except Error (List Val)
  | .Arr xs => .ok ((List.range xs.length).map fun i => .Int i)
  | .Obj kvs =>
    .ok ((sortByStable (fun a b => a ≤ b) (kvs.map Prod.fst)).map fun k => .Str k)
  | _ => .error (.Typ "keys expects an object or an array")

/-- Modelled from the spec: Floor, Round and Ceil are the identity on
integers; the float case is outside this embedding (section 4.1). -/
def round_val : Val → ValR
  | .Int n => .ok (.Int n)
  | _ => .error (.Typ "number expected")

/-- Modelled from the spec: FromJson delegates to an external JSON parser that
is not part of the core sources; represented as a parse failure here, since no
claim exercises it. -/
def from_json : Val → ValR
  | _ => .error (.Parse "external parser not modelled")

mutual

/-- Modelled from the spec: ToJson serializes to a canonical string with
objects in insertion order (section 6); escaping is left to the external
serializer and not repeated here. -/
def to_json : Val → String
  | .Null => "null"
  | .Bool b => if b then "true" else "false"
  | .Int n => toString n
  | .Float _ => "null"
  | .Str s => "\"" ++ s ++ "\""
  | .Arr xs => "[" ++ to_json_list xs ++ "]"
  | .Obj kvs => "\x7b" ++ to_json_kvs kvs ++ "\x7d"

/-- Comma-separated serialization of array elements. -/
def to_json_list : List Val → String
  | [] => ""
  | [x] => to_json x
  | x :: xs => to_json x ++ "," ++ to_json_list xs

/-- Comma-separated serialization of object entries. -/
def to_json_kvs : List (String × Val) → String
  | [] => ""
  | [(k, v)] => "\"" ++ k ++ "\":" ++ to_json v
  | (k, v) :: kvs => "\"" ++ k ++ "\":" ++ to_json v ++ "," ++ to_json_kvs kvs

end

/-- Modelled from the spec: Explode turns a string into its codepoints. -/
def explode_val : Val → Except Error (List Val)
  | .Str s => .ok (s.data.map fun c => .Int c.toNat)
  | _ => .error (.Typ "string expected")

/-- Modelled from the spec: Implode turns an array of codepoints back into a
string. -/
def implode_val : Val → Except Error String
  | .Arr xs =>
    (collectExcept (xs.map fun v =>
      match v with
      | .Int n => Except.ok (Char.ofNat n.toNat)
      | _ => Except.error (Error.Typ "integer expected"))).map String.mk
  | _ => .error (.Typ "array expected")

/-- Modelled from the spec: Val::mutate_str applies a string transformation,
used by AsciiDowncase and AsciiUpcase. -/
def mutate_str (f : String → String) : Val → ValR
  | .Str s => .ok (.Str (f s))
  | _ => .error (.Typ "string expected")

/-- Modelled from the spec: Val::mutate_arr applies an array transformation,
used by Reverse and Sort. -/
def mutate_arr (f : List Val → List Val) : Val → ValR
  | .Arr xs => .ok (.Arr (f xs))
  | _ => .error (.Typ "array expected")

/-- Modelled from the spec: SortBy computes one key list per element by
collecting the key filter output, then sorts stably by lexicographic
comparison of the key lists; a key error aborts (section 4.1). -/
def sort_by_val (keyf : Val → List ValR) : Val → ValR
  | .Arr xs =>
    match collectExcept (xs.map fun x => (collectExcept (keyf x)).map fun ks => (ks, x)) with
    | .error e => .error e
    | .ok pairs =>
      .ok (.Arr ((sortByStable
        (fun a b => match Val.cmpList a.1 b.1 with | .gt => false | _ => true)
        pairs).map Prod.snd))
  | _ => .error (.Typ "array expected")

/-- Equality of values, following the total order of section 3. -/
def valEq (a b : Val) : Bool :=
  match Val.cmp a b with
  | .eq => true
  | _ => false

/-- Modelled from the spec: Has checks key membership, string keys in objects
and integer indices in arrays (section 4.1). -/
def has_val (v k : Val) : Except Error Bool :=
  match v, k with
  | .Obj kvs, .Str s => .ok (kvs.any fun kv => kv.1 == s)
  | .Arr xs, .Int i => .ok (decide (0 ≤ i ∧ i < (xs.length : Int)))
  | _, _ => .error (.Typ "has expects an object with a string or an array with an integer")

/-- Whether the first character list starts the second one. -/
def startsWithChars : List Char → List Char → Bool
  | [], _ => true
  | _ :: _, [] => false
  | a :: as_, b :: bs => a == b && startsWithChars as_ bs

/-- Whether the first character list occurs contiguously in the second one. -/
def infixOfChars (needle : List Char) : List Char → Bool
  | [] => startsWithChars needle []
  | c :: rest => startsWithChars needle (c :: rest) || infixOfChars needle rest

/-- Modelled from the spec: recursive structural containment in the jq sense,
where objects contain objects with contained entries, arrays contain arrays
whose members are each contained in some element, strings contain substrings,
and other values are compared for equality (section 4.1). -/
def contains_val : Val → Val → Bool
  | .Obj lk, .Obj rk =>
    rk.attach.all fun kv => lk.any fun kv2 => kv2.1 == kv.1.1 && contains_val kv2.2 kv.1.2
  | .Arr ls, .Arr rs => rs.attach.all fun rv => ls.any fun lv => contains_val lv rv.1
  | .Str l, .Str r => infixOfChars r.data l.data
  | a, b => valEq a b
termination_by a b => sizeOf b
decreasing_by
  all_goals simp_wf
  · obtain ⟨⟨k, v⟩, hmem⟩ := kv
    have hm := List.sizeOf_lt_of_mem hmem
    simp at hm ⊢
    omega
  · obtain ⟨rv1, hmem⟩ := rv
    have hm := List.sizeOf_lt_of_mem hmem
    simp at hm ⊢
    omega

/-- Modelled from the spec: Split divides a string by a string separator. -/
def split_val (v sep : Val) : Except Error (List Val)  :=
  match v, sep with
  | .Str s, .Str t =>
    if t = "" then .error (.Str "split separator must be nonempty")
    else .ok ((s.splitOn t).map fun part => .Str part)
  | _, _ => .error (.Typ "split expects two strings")

/-- Modelled from the spec: the arithmetic operators of jaq-parse (not under
src/).  Numbers add, subtract, multiply, divide and take remainders; Add also
concatenates strings and arrays; any other operand pair is an arithmetic
error (section 7). -/
inductive MathOp where
  | Add | Sub | Mul | Div | Rem

/-- Modelled from the spec: evaluation of one arithmetic operator. -/
def MathOp.run : MathOp → Val → Val → ValR
  | .Add, .Int a, .Int b => .ok (.Int (a + b))
  | .Add, .Str a, .Str b => .ok (.Str (a ++ b))
  | .Add, .Arr a, .Arr b => .ok (.Arr (a ++ b))
  | .Sub, .Int a, .Int b => .ok (.Int (a - b))
  | .Mul, .Int a, .Int b => .ok (.Int (a * b))
  | .Div, .Int a, .Int b =>
    if b = 0 then .error (.Math "division by zero") else .ok (.Int (a / b))
  | .Rem, .Int a, .Int b =>
    if b = 0 then .error (.Math "division by zero") else .ok (.Int (a % b))
  | _, _, _ => .error (.Math "unsupported operand pair")

/-- Modelled from the spec: the ordering operators of jaq-parse. -/
inductive OrdOp where
  | Lt | Le | Gt | Ge | Eq | Ne

/-- Modelled from the spec: evaluation of one ordering operator over the total
order on values. -/
def OrdOp.run (op : OrdOp) (a b : Val) : Bool :=
  match op, Val.cmp a b with
  | .Lt, .lt => true
  | .Lt, _ => false
  | .Le, .gt => false
  | .Le, _ => true
  | .Gt, .gt => true
  | .Gt, _ => false
  | .Ge, .lt => false
  | .Ge, _ => true
  | .Eq, .eq => true
  | .Eq, _ => false
  | .Ne, .eq => false
  | .Ne, _ => true

/-- Modelled from the spec: the optionality flag on path parts (path.rs is not
under src/, section 4.5). -/
inductive Opt where
  | Strict | Optional

/-- Modelled from the spec: a path part, an index or a range whose components
are expressions of type α (path.rs, section 4.5). -/
inductive Part (α : Type u) where
  | Index (i : α)
  | Range (lo : Option α) (hi : Option α)

/-- Translation of the Filter enum of filter.rs (Sort is written with an
apostrophe because Sort is reserved in Lean). -/
inductive Filter where
  | Id
  | Int (n : Int)
  | Float (x : Int)
  | Str (s : String)
  | Array (f : Option Filter)
  | Object (kvs : List (Filter × Filter))
  | Try (f : Filter)
  | Neg (f : Filter)
  | Pipe (l : Filter) (bind : Bool) (r : Filter)
  | Comma (l : Filter) (r : Filter)
  | Alt (l : Filter) (r : Filter)
  | IfThenElse (ifThens : List (Filter × Filter)) (els : Filter)
  | Reduce (xs : Filter) (init : Filter) (f : Filter)
  | Path (f : Filter) (path : List (Part Filter × Opt))
  | Assign (path : Filter) (f : Filter)
  | Update (path : Filter) (f : Filter)
  | Logic (l : Filter) (stop : Bool) (r : Filter)
  | Math (l : Filter) (op : MathOp) (r : Filter)
  | Ord (l : Filter) (op : OrdOp) (r : Filter)
  | Empty
  | Error
  | Length
  | Floor
  | Round
  | Ceil
  | FromJson
  | ToJson
  | Keys
  | Explode
  | Implode
  | AsciiDowncase
  | AsciiUpcase
  | Reverse
  | Sort'
  | SortBy (f : Filter)
  | Has (f : Filter)
  | Split (f : Filter)
  | First (f : Filter)
  | Last (f : Filter)
  | Recurse (f : Filter)
  | Contains (f : Filter)
  | Limit (n : Filter) (f : Filter)
  | Range (lo : Filter) (hi : Filter)
  | SkipCtx (n : Nat) (f : Filter)
  | Var (n : Nat)
  | Arg (n : Nat)

/-- Default filter, as in the source impl of Default for Filter. -/
instance : Inhabited Filter := ⟨Filter.Id⟩

mutual

/-- Translation of Filter::subst (filter.rs lines 378 to 429): replace every
Arg(i) placeholder by args[i], recursing into every compound node and leaving
all other leaves unchanged.  The out-of-bounds panic of args[a] is totalized
with the default filter. -/
def Filter.subst (args : List Filter) : Filter → Filter
  | .Id => .Id
  | .Int n => .Int n
  | .Float x => .Float x
  | .Str s => .Str s
  | .Array f => .Array (Filter.substOpt args f)
  | .Object kvs => .Object (Filter.substPairs args kvs)
  | .Try f => .Try (Filter.subst args f)
  | .Neg f => .Neg (Filter.subst args f)
  | .Pipe l bind r => .Pipe (Filter.subst args l) bind (Filter.subst args r)
  | .Comma l r => .Comma (Filter.subst args l) (Filter.subst args r)
  | .Alt l r => .Alt (Filter.subst args l) (Filter.subst args r)
  | .IfThenElse ifThens els =>
    .IfThenElse (Filter.substPairs args ifThens) (Filter.subst args els)
  | .Reduce xs init f =>
    .Reduce (Filter.subst args xs) (Filter.subst args init) (Filter.subst args f)
  | .Path f path => .Path (Filter.subst args f) (Filter.substParts args path)
  | .Assign path f => .Assign (Filter.subst args path) (Filter.subst args f)
  | .Update path f => .Update (Filter.subst args path) (Filter.subst args f)
  | .Logic l stop r => .Logic (Filter.subst args l) stop (Filter.subst args r)
  | .Math l op r => .Math (Filter.subst args l) op (Filter.subst args r)
  | .Ord l op r => .Ord (Filter.subst args l) op (Filter.subst args r)
  | .Empty => .Empty
  | .Error => .Error
  | .Length => .Length
  | .Floor => .Floor
  | .Round => .Round
  | .Ceil => .Ceil
  | .FromJson => .FromJson
  | .ToJson => .ToJson
  | .Keys => .Keys
  | .Explode => .Explode
  | .Implode => .Implode
  | .AsciiDowncase => .AsciiDowncase
  | .AsciiUpcase => .AsciiUpcase
  | .Reverse => .Reverse
  | .Sort' => .Sort'
  | .SortBy f => .SortBy (Filter.subst args f)
  | .Has f => .Has (Filter.subst args f)
  | .Split f => .Split (Filter.subst args f)
  | .First f => .First (Filter.subst args f)
  | .Last f => .Last (Filter.subst args f)
  | .Recurse f => .Recurse (Filter.subst args f)
  | .Contains f => .Contains (Filter.subst args f)
  | .Limit n f => .Limit (Filter.subst args n) (Filter.subst args f)
  | .Range lo hi => .Range (Filter.subst args lo) (Filter.subst args hi)
  | .SkipCtx n f => .SkipCtx n (Filter.subst args f)
  | .Var n => .Var n
  | .Arg a => args.getD a .Id

/-- Substitution under an optional subfilter (the Array payload). -/
def Filter.substOpt (args : List Filter) : Option Filter → Option Filter
  | none => none
  | some f => some (Filter.subst args f)

/-- Substitution in a list of filter pairs (Object entries, IfThenElse). -/
def Filter.substPairs (args : List Filter) : List (Filter × Filter) → List (Filter × Filter)
  | [] => []
  | (k, v) :: rest => (Filter.subst args k, Filter.subst args v) :: Filter.substPairs args rest

/-- Substitution in the parts of a path (Path::map in the source). -/
def Filter.substParts (args : List Filter) :
    List (Part Filter × Opt) → List (Part Filter × Opt)
  | [] => []
  | (p, opt) :: rest => (Filter.substPart args p, opt) :: Filter.substParts args rest

/-- Substitution in a single path part. -/
def Filter.substPart (args : List Filter) : Part Filter → Part Filter
  | .Index i => .Index (Filter.subst args i)
  | .Range lo hi => .Range (Filter.substOpt args lo) (Filter.substOpt args hi)

end

mutual

/-- Whether some Arg(i) placeholder occurs anywhere in the filter. -/
def Filter.hasArg : Filter → Bool
  | .Id | .Int _ | .Float _ | .Str _ => false
  | .Array f => Filter.hasArgOpt f
  | .Object kvs => Filter.hasArgPairs kvs
  | .Try f | .Neg f => Filter.hasArg f
  | .Pipe l _ r => Filter.hasArg l || Filter.hasArg r
  | .Comma l r | .Alt l r => Filter.hasArg l || Filter.hasArg r
  | .IfThenElse ifThens els => Filter.hasArgPairs ifThens || Filter.hasArg els
  | .Reduce xs init f => Filter.hasArg xs || Filter.hasArg init || Filter.hasArg f
  | .Path f path => Filter.hasArg f || Filter.hasArgParts path
  | .Assign path f | .Update path f => Filter.hasArg path || Filter.hasArg f
  | .Logic l _ r => Filter.hasArg l || Filter.hasArg r
  | .Math l _ r | .Ord l _ r => Filter.hasArg l || Filter.hasArg r
  | .Empty | .Error | .Length | .Floor | .Round | .Ceil => false
  | .FromJson | .ToJson | .Keys | .Explode | .Implode => false
  | .AsciiDowncase | .AsciiUpcase | .Reverse | .Sort' => false
  | .SortBy f | .Has f | .Split f | .First f | .Last f => Filter.hasArg f
  | .Recurse f | .Contains f => Filter.hasArg f
  | .Limit n f => Filter.hasArg n || Filter.hasArg f
  | .Range lo hi => Filter.hasArg lo || Filter.hasArg hi
  | .SkipCtx _ f => Filter.hasArg f
  | .Var _ => false
  | .Arg _ => true

/-- hasArg under an optional subfilter. -/
def Filter.hasArgOpt : Option Filter → Bool
  | none => false
  | some f => Filter.hasArg f

/-- hasArg over a list of filter pairs. -/
def Filter.hasArgPairs : List (Filter × Filter) → Bool
  | [] => false
  | (k, v) :: rest => Filter.hasArg k || Filter.hasArg v || Filter.hasArgPairs rest

/-- hasArg over the parts of a path. -/
def Filter.hasArgParts : List (Part Filter × Opt) → Bool
  | [] => false
  | (p, _) :: rest => Filter.hasArgPart p || Filter.hasArgParts rest

/-- hasArg in a single path part. -/
def Filter.hasArgPart : Part Filter → Bool
  | .Index i => Filter.hasArg i
  | .Range lo hi => Filter.hasArgOpt lo || Filter.hasArgOpt hi

end

mutual

/-- Whether every Arg(i) placeholder in the filter has index below k, i.e. the
argument list of length k covers every placeholder. -/
def Filter.argsBelow (k : Nat) : Filter → Bool
  | .Id | .Int _ | .Float _ | .Str _ => true
  | .Array f => Filter.argsBelowOpt k f
  | .Object kvs => Filter.argsBelowPairs k kvs
  | .Try f | .Neg f => Filter.argsBelow k f
  | .Pipe l _ r => Filter.argsBelow k l && Filter.argsBelow k r
  | .Comma l r | .Alt l r => Filter.argsBelow k l && Filter.argsBelow k r
  | .IfThenElse ifThens els => Filter.argsBelowPairs k ifThens && Filter.argsBelow k els
  | .Reduce xs init f =>
    Filter.argsBelow k xs && Filter.argsBelow k init && Filter.argsBelow k f
  | .Path f path => Filter.argsBelow k f && Filter.argsBelowParts k path
  | .Assign path f | .Update path f => Filter.argsBelow k path && Filter.argsBelow k f
  | .Logic l _ r => Filter.argsBelow k l && Filter.argsBelow k r
  | .Math l _ r | .Ord l _ r => Filter.argsBelow k l && Filter.argsBelow k r
  | .Empty | .Error | .Length | .Floor | .Round | .Ceil => true
  | .FromJson | .ToJson | .Keys | .Explode | .Implode => true
  | .AsciiDowncase | .AsciiUpcase | .Reverse | .Sort' => true
  | .SortBy f | .Has f | .Split f | .First f | .Last f => Filter.argsBelow k f
  | .Recurse f | .Contains f => Filter.argsBelow k f
  | .Limit n f => Filter.argsBelow k n && Filter.argsBelow k f
  | .Range lo hi => Filter.argsBelow k lo && Filter.argsBelow k hi
  | .SkipCtx _ f => Filter.argsBelow k f
  | .Var _ => true
  | .Arg a => decide (a < k)

/-- argsBelow under an optional subfilter. -/
def Filter.argsBelowOpt (k : Nat) : Option Filter → Bool
  | none => true
  | some f => Filter.argsBelow k f

/-- argsBelow over a list of filter pairs. -/
def Filter.argsBelowPairs (k : Nat) : List (Filter × Filter) → Bool
  | [] => true
  | (x, v) :: rest => Filter.argsBelow k x && Filter.argsBelow k v && Filter.argsBelowPairs k rest

/-- argsBelow over the parts of a path. -/
def Filter.argsBelowParts (k : Nat) : List (Part Filter × Opt) → Bool
  | [] => true
  | (p, _) :: rest => Filter.argsBelowPart k p && Filter.argsBelowParts k rest

/-- argsBelow in a single path part. -/
def Filter.argsBelowPart (k : Nat) : Part Filter → Bool
  | .Index i => Filter.argsBelow k i
  | .Range lo hi => Filter.argsBelowOpt k lo && Filter.argsBelowOpt k hi

end

theorem getD_eq_get (l : List α) (d : α) (i : Nat) (h : i < l.length) :
    l.getD i d = l.get ⟨i, h⟩ := by
  simp [List.getD_eq_getElem?_getD, List.getElem?_eq_getElem h, List.get_eq_getElem]

theorem hasArg_getD (args : List Filter) (hclean : ∀ g ∈ args, Filter.hasArg g = false)
    (a : Nat) (ha : a < args.length) : Filter.hasArg (args.getD a .Id) = false := by
  rw [getD_eq_get args .Id a ha]
  exact hclean _ (List.get_mem args a ha)

theorem substArgFree_mutual (args : List Filter)
    (hclean : ∀ g ∈ args, Filter.hasArg g = false) :
    (∀ f, Filter.argsBelow args.length f = true →
        Filter.hasArg (Filter.subst args f) = false)
    ∧ (∀ ps : List (Part Filter × Opt), Filter.argsBelowParts args.length ps = true →
        Filter.hasArgParts (Filter.substParts args ps) = false)
    ∧ (∀ p : Part Filter, Filter.argsBelowPart args.length p = true →
        Filter.hasArgPart (Filter.substPart args p) = false)
    ∧ (∀ o : Option Filter, Filter.argsBelowOpt args.length o = true →
        Filter.hasArgOpt (Filter.substOpt args o) = false)
    ∧ (∀ kvs : List (Filter × Filter), Filter.argsBelowPairs args.length kvs = true →
        Filter.hasArgPairs (Filter.substPairs args kvs) = false) := by
  apply Filter.subst.mutual_induct args <;>
    intros <;>
    simp_all [Filter.subst, Filter.hasArg, Filter.argsBelow,
      Filter.substOpt, Filter.hasArgOpt, Filter.argsBelowOpt,
      Filter.substPairs, Filter.hasArgPairs, Filter.argsBelowPairs,
      Filter.substParts, Filter.hasArgParts, Filter.argsBelowParts,
      Filter.substPart, Filter.hasArgPart, Filter.argsBelowPart]


/-- Translation of the stream predicate of Alt (filter.rs line 186): keep
Err elements and keep Ok values whose as_bool is true. -/
def altKeep : ValR → Bool
  | .ok w => as_bool w
  | .error _ => true

/-- Translation of the per-element step shared by both Pipe variants
(filter.rs lines 151 to 179): an Ok value is fed to the continuation and an
Err is emitted as a singleton. -/
def bindStep (step : Val → List ValR) : ValR → List ValR
  | .ok y => step y
  | .error e => [.error e]

/-- Translation of the single-upper-bound fast path of Pipe with binding
(filter.rs lines 158 to 175): consume at most one element of the left stream
directly, without re-running the iterator. -/
def pipeBindFast (step : Val → List ValR) : List ValR → List ValR
  | [] => []
  | y :: _ => bindStep step y

/-- Translation of itertools cartesian_product, the general branch of
Filter::cartesian: every left element paired with every right element. -/
def cartesianProduct (l r : List ValR) : List (ValR × ValR) :=
  l.flatMap fun x => r.map fun y => (x, y)

/-- Translation of Filter::cartesian (filter.rs lines 330 to 341): the right
stream is collected; when it has exactly one element, the left elements are
paired with it directly, otherwise the full cartesian product is taken. -/
def cartesianOf (l r : List ValR) : List (ValR × ValR) :=
  if r.length = 1 then l.map fun x => (x, r.getD 0 default)
  else cartesianProduct l r

/-- Translation of Recurse::next (filter.rs lines 489 to 508) as a step on
the worklist: pop the last element of vals; an Ok value is emitted and its
children are appended in reverse, so that the first child is popped next; an
Err is emitted without children. -/
def recurseStep (children : Val → List ValR) (vals : List ValR) :
    Option (ValR × List ValR) :=
  match vals.getLast? with
  | none => none
  | some v =>
    match v with
    | .ok w => some (v, vals.dropLast ++ (children w).reverse)
    | .error e => some (.error e, vals.dropLast)

/-- The stream of the Recurse iterator, truncated to at most fuel elements. -/
def recurseEmit (children : Val → List ValR) : Nat → List ValR → List ValR
  | 0, _ => []
  | n + 1, vals =>
    match recurseStep children vals with
    | none => []
    | some (v, rest) => v :: recurseEmit children n rest

/-- Specification-side preorder traversal of a forest of pending nodes,
truncated to n elements: an Ok node is emitted and followed by the traversal
of its children (so the first output of the child filter is visited next),
and an Err node is emitted in place with no children. -/
def preorderTake (children : Val → List ValR) : Nat → List ValR → List ValR
  | 0, _ => []
  | _ + 1, [] => []
  | n + 1, .error e :: rest => .error e :: preorderTake children n rest
  | n + 1, .ok v :: rest => .ok v :: preorderTake children n (children v ++ rest)

/-- Translation of Filter::if_then_else (filter.rs lines 343 to 356) with the
condition and branch streams precomputed, which is faithful because the
helper always passes the original input value to every branch. -/
def iteGo : List (List ValR × List ValR) → List ValR → List ValR
  | [], els => els
  | (conds, thens) :: rest, els =>
    conds.flatMap fun v =>
      match v with
      | .ok w => if as_bool w then thens else iteGo rest els
      | .error e => [.error e]

/-- Translation of itertools multi_cartesian_product as used for Object
construction: all combinations picking one element from each stream, first
stream slowest.  An empty list of streams yields no combination at all,
which is why the source special-cases the empty object. -/
def multiCartesian : List (List α) → List (List α)
  | [] => []
  | [l] => l.map fun x => [x]
  | l :: ls => l.flatMap fun x => (multiCartesian ls).map fun comb => x :: comb

/-- Translation of Iterator::try_fold: fold a list, short-circuiting at the
first error of the folding function. -/
def tryFold (f : β → α → Except ε β) : β → List α → Except ε β
  | b, [] => .ok b
  | b, a :: rest =>
    match f b a with
    | .error e => .error e
    | .ok b2 => tryFold f b2 rest

/-- Translation of the per-entry collection in Object construction (filter.rs
line 142): unwrap the key result, coerce it to a string, then unwrap the
value result. -/
def objEntry : ValR × ValR → Except Error (String × Val)
  | (k, v) => do
    let kv ← k
    let s ← str_of kv
    let w ← v
    pure (s, w)

/-- ASCII lowercasing, as in make_ascii_lowercase. -/
def asciiLower (s : String) : String := s.map Char.toLower

/-- ASCII uppercasing, as in make_ascii_uppercase. -/
def asciiUpper (s : String) : String := s.map Char.toUpper

/-- Modelled from the spec: indexing one value by one index value (path.rs
and val.rs are not under src/).  Strings index objects, with Null for a
missing key and for indexing Null itself; integers index arrays, counting
from the end when negative, with Null out of range; anything else is an
indexing error (sections 4.5 and 9). -/
def index_val (v i : Val) : ValR :=
  match v, i with
  | .Null, .Str _ => .ok .Null
  | .Null, .Int _ => .ok .Null
  | .Obj kvs, .Str s =>
    .ok (match kvs.find? (fun kv => kv.1 == s) with
         | some kv => kv.2
         | none => .Null)
  | .Arr xs, .Int n =>
    let idx : Int := if n < 0 then n + xs.length else n
    if 0 ≤ idx then .ok (xs.getD idx.toNat .Null) else .ok .Null
  | _, _ => .error (.Index "cannot index value")

/-- Modelled from the spec: iterating a value for the bare range part, all
array elements or all object values in order (section 4.5). -/
def iterate_val : Val → List ValR
  | .Arr xs => xs.map Except.ok
  | .Obj kvs => kvs.map fun kv => .ok kv.2
  | _ => [.error (.Index "cannot iterate over value")]

/-- Modelled from the spec: one slice endpoint, Null defaulting to the given
end and negative indices counted from the end (section 4.5). -/
def sliceBound (len : Nat) (dflt : Int) : Val → Except Error Int
  | .Null => .ok dflt
  | .Int n => .ok (if n < 0 then max 0 (n + len) else min n len)
  | _ => .error (.Typ "slice index must be an integer")

/-- Modelled from the spec: the slice of an array between two endpoint
values; slicing of strings is not modelled, no claim depends on it. -/
def slice_val (v lo hi : Val) : ValR :=
  match v with
  | .Arr xs => do
    let a ← sliceBound xs.length 0 lo
    let b ← sliceBound xs.length xs.length hi
    pure (.Arr ((xs.take b.toNat).drop a.toNat))
  | _ => .error (.Typ "cannot slice value")

/-- Modelled from the spec: applying one materialized path part to one value
in run mode (section 4.5): an Index part indexes by each index value in
turn; a Range part without endpoints iterates the value; a Range part with
endpoints yields one slice per endpoint combination. -/
def partCollectVals : Part (List Val) → Val → List ValR
  | .Index is_, v => is_.map fun i => index_val v i
  | .Range none none, v => iterate_val v
  | .Range lo hi, v =>
    let los := match lo with | none => [Val.Null] | some xs => xs
    let his := match hi with | none => [Val.Null] | some xs => xs
    los.flatMap fun a => his.map fun b => slice_val v a b

/-- Modelled from the spec: Strict parts propagate indexing errors, Optional
parts silently drop the failing values (section 4.5). -/
def optCollect : Opt → List ValR → Except Error (List Val)
  | .Strict, xs => collectExcept xs
  | .Optional, xs => .ok (xs.filterMap fun x => x.toOption)

/-- Modelled from the spec: replace the slot at one index value inside a
value by the first output of the continuation, dropping the slot when the
continuation yields nothing; object keys and array indices are supported
(path.rs is not under src/, and no claim depends on this definition). -/
def updIndex (v i : Val) (cont : Val → List ValR) : ValR :=
  match v, i with
  | .Obj kvs, .Str s =>
    let old := match kvs.find? (fun kv => kv.1 == s) with
               | some kv => kv.2
               | none => .Null
    match (cont old).head? with
    | none => .ok (.Obj (kvs.filter fun kv => !(kv.1 == s)))
    | some (.ok w) =>
      if kvs.any fun kv => kv.1 == s then
        .ok (.Obj (kvs.map fun kv => if kv.1 == s then (kv.1, w) else kv))
      else .ok (.Obj (kvs ++ [(s, w)]))
    | some (.error e) => .error e
  | .Null, .Str s =>
    match (cont .Null).head? with
    | none => .ok .Null
    | some (.ok w) => .ok (.Obj [(s, w)])
    | some (.error e) => .error e
  | .Arr xs, .Int n =>
    let idx : Int := if n < 0 then n + xs.length else n
    if 0 ≤ idx ∧ idx < (xs.length : Int) then
      match (cont (xs.getD idx.toNat .Null)).head? with
      | none => .ok (.Arr (xs.take idx.toNat ++ xs.drop (idx.toNat + 1)))
      | some (.ok w) => .ok (.Arr (xs.set idx.toNat w))
      | some (.error e) => .error e
    else .error (.Index "array index out of range in update")
  | _, _ => .error (.Index "cannot update index of value")

/-- Modelled from the spec: update every element of an array or every value
of an object by the first output of the continuation, dropping slots whose
continuation yields nothing (sections 4.2 and 4.5). -/
def updIterate (v : Val) (cont : Val → List ValR) : ValR :=
  match v with
  | .Arr xs =>
    (collectExcept (xs.map fun x =>
      match (cont x).head? with
      | none => Except.ok none
      | some (.ok w) => Except.ok (some w)
      | some (.error e) => Except.error e)).map fun ys => .Arr (ys.filterMap id)
  | .Obj kvs =>
    (collectExcept (kvs.map fun kv =>
      match (cont kv.2).head? with
      | none => Except.ok none
      | some (.ok w) => Except.ok (some (kv.1, w))
      | some (.error e) => Except.error e)).map fun ys => .Obj (ys.filterMap id)
  | _ => .error (.Index "cannot iterate over value in update")

/-- Modelled from the spec: applying one materialized path part in update
mode; an Optional part that fails leaves the value unchanged, a Strict
failure surfaces the error (sections 4.2 and 4.5). -/
def partUpdate (p : Part (List Val)) (opt : Opt) (v : Val) (cont : Val → List ValR) :
    List ValR :=
  let res : ValR :=
    match p with
    | .Index is_ =>
      is_.foldl (fun acc i =>
        match acc with
        | .error e => .error e
        | .ok cur => updIndex cur i cont) (.ok v)
    | .Range none none => updIterate v cont
    | .Range _ _ => .error (.Str "range slice update not modelled")
  match res, opt with
  | .error _, .Optional => [.ok v]
  | .error e, .Strict => [.error e]
  | .ok w, _ => [.ok w]

/-- Modelled from the spec: path::Part::run in update mode, applying the
parts left to right with the continuation of each part updating along the
remaining parts and replace at the leaves (section 4.2). -/
def partsUpdate : List (Part (List Val) × Opt) → Val → (Val → List ValR) → List ValR
  | [], v, replace => replace v
  | (p, opt) :: rest, v, replace =>
    partUpdate p opt v fun w => partsUpdate rest w replace

mutual

/-- Translation of Filter::run (filter.rs lines 121 to 283).  The lazy
iterator is embedded as a finite list of results.  The fuel argument bounds
only the length of the Recurse stream and the depth of Recurse in update
mode; it is passed through unchanged everywhere else.  The size-hint fast
path of Pipe with binding is not observable on lists and is modelled
separately by pipeBindFast; the Arg panic is modelled by the bug error. -/
def Filter.run (fuel : Nat) : Filter → Ctx × Val → List ValR
  | .Id, cv => [.ok cv.2]
  | .Int n, _ => [.ok (.Int n)]
  | .Float x, _ => [.ok (.Float x)]
  | .Str s, _ => [.ok (.Str s)]
  | .Array none, _ => [.ok (.Arr [])]
  | .Array (some f), cv => [(collectExcept (Filter.run fuel f cv)).map Val.Arr]
  | .Object kvs, cv =>
    if kvs.isEmpty then [.ok (.Obj [])]
    else
      (multiCartesian (Filter.runPairsCart fuel kvs cv)).map fun comb =>
        (collectExcept (comb.map objEntry)).map Val.Obj
  | .Try f, cv =>
    (Filter.run fuel f cv).filter fun y =>
      match y with
      | .ok _ => true
      | .error _ => false
  | .Neg f, cv => (Filter.run fuel f cv).map fun v => v.bind neg_val
  | .Pipe l false r, cv =>
    (Filter.run fuel l cv).flatMap (bindStep fun y => Filter.run fuel r (cv.1, y))
  | .Pipe l true r, cv =>
    (Filter.run fuel l cv).flatMap (bindStep fun y => Filter.run fuel r (.cons y cv.1, cv.2))
  | .Comma l r, cv => Filter.run fuel l cv ++ Filter.run fuel r cv
  | .Alt l r, cv =>
    match (Filter.run fuel l cv).filter altKeep with
    | [] => Filter.run fuel r cv
    | h :: t => h :: t
  | .IfThenElse ifThens els, cv =>
    iteGo (Filter.runIfThens fuel ifThens cv) (Filter.run fuel els cv)
  | .Path f parts, cv =>
    match (collectExcept (Filter.run fuel f cv)).bind
        (fun init => Filter.pathCollect fuel parts cv init) with
    | .ok ys => ys.map Except.ok
    | .error e => [.error e]
  | .Assign pathf f, cv =>
    Filter.update fuel pathf cv fun _ => Filter.run fuel f cv
  | .Update pathf f, cv =>
    Filter.update fuel pathf cv fun v => Filter.run fuel f (cv.1, v)
  | .Logic l stop r, cv =>
    (Filter.run fuel l cv).flatMap fun x =>
      match x with
      | .error e => [.error e]
      | .ok lv =>
        if as_bool lv = stop then [.ok (.Bool stop)]
        else (Filter.run fuel r cv).map fun rr => rr.map fun w => .Bool (as_bool w)
  | .Math l op r, cv =>
    (cartesianOf (Filter.run fuel l cv) (Filter.run fuel r cv)).map fun xy => do
      MathOp.run op (← xy.1) (← xy.2)
  | .Ord l op r, cv =>
    (cartesianOf (Filter.run fuel l cv) (Filter.run fuel r cv)).map fun xy => do
      pure (Val.Bool (OrdOp.run op (← xy.1) (← xy.2)))
  | .Empty, _ => []
  | .Error, cv => [.error (.Val cv.2)]
  | .Length, cv => [len_val cv.2]
  | .Floor, cv => [round_val cv.2]
  | .Round, cv => [round_val cv.2]
  | .Ceil, cv => [round_val cv.2]
  | .FromJson, cv => [from_json cv.2]
  | .ToJson, cv => [.ok (.Str (to_json cv.2))]
  | .Keys, cv => [(keys_val cv.2).map Val.Arr]
  | .Explode, cv => [(explode_val cv.2).map Val.Arr]
  | .Implode, cv => [(implode_val cv.2).map Val.Str]
  | .AsciiDowncase, cv => [mutate_str asciiLower cv.2]
  | .AsciiUpcase, cv => [mutate_str asciiUpper cv.2]
  | .Reverse, cv => [mutate_arr List.reverse cv.2]
  | .Sort', cv => [mutate_arr (sortByStable valLe) cv.2]
  | .SortBy f, cv => [sort_by_val (fun v => Filter.run fuel f (cv.1, v)) cv.2]
  | .Has f, cv =>
    (Filter.run fuel f cv).map fun k => do
      pure (Val.Bool (← has_val cv.2 (← k)))
  | .Contains f, cv =>
    (Filter.run fuel f cv).map fun y => do
      pure (Val.Bool (contains_val cv.2 (← y)))
  | .Split f, cv =>
    (Filter.run fuel f cv).map fun sep => do
      pure (Val.Arr (← split_val cv.2 (← sep)))
  | .First f, cv => (Filter.run fuel f cv).take 1
  | .Last f, cv =>
    match tryFold (fun _ x => x.map some) none (Filter.run fuel f cv) with
    | .ok (some v) => [.ok v]
    | .ok none => []
    | .error e => [.error e]
  | .Limit n f, cv =>
    ((Filter.run fuel n cv).map fun m => m.bind as_int).flatMap fun m =>
      match m with
      | .ok k => (Filter.run fuel f cv).take (max 0 k).toNat
      | .error e => [.error e]
  | .Range lo hi, cv =>
    ((cartesianOf (Filter.run fuel lo cv) (Filter.run fuel hi cv)).map fun xy => do
      pure ((← as_int (← xy.1)), (← as_int (← xy.2)))).flatMap fun pr =>
      match pr with
      | .ok (l, u) => (List.range (u - l).toNat).map fun i => .ok (.Int (l + i))
      | .error e => [.error e]
  | .Recurse f, cv =>
    recurseEmit (fun w => Filter.run fuel f (cv.1, w)) fuel [.ok cv.2]
  | .Reduce xs init f, cv =>
    match (collectExcept (Filter.run fuel init cv)).bind (fun i =>
        tryFold (fun acc x => x.bind fun xv =>
          collectExcept (acc.flatMap fun a => Filter.run fuel f (.cons xv cv.1, a))) i
          (Filter.run fuel xs cv)) with
    | .ok ys => ys.map Except.ok
    | .error e => [.error e]
  | .SkipCtx n f, cv => Filter.run fuel f (Ctx.skip n cv.1, cv.2)
  | .Var n, cv => [.ok ((Ctx.get n cv.1).getD .Null)]
  | .Arg _, _ => [.error .bug]
termination_by f cv => (fuel, sizeOf f)

/-- Translation of the key-value pair streams of Object construction
(filter.rs line 138): one cartesian product of key and value streams per
pair, over the same input. -/
def Filter.runPairsCart (fuel : Nat) :
    List (Filter × Filter) → Ctx × Val → List (List (ValR × ValR))
  | [], _ => []
  | (kf, vf) :: rest, cv =>
    cartesianOf (Filter.run fuel kf cv) (Filter.run fuel vf cv)
      :: Filter.runPairsCart fuel rest cv
termination_by l cv => (fuel, sizeOf l)

/-- Precomputed condition and branch streams for IfThenElse in run mode:
every branch receives the original input value. -/
def Filter.runIfThens (fuel : Nat) :
    List (Filter × Filter) → Ctx × Val → List (List ValR × List ValR)
  | [], _ => []
  | (c, t) :: rest, cv =>
    (Filter.run fuel c cv, Filter.run fuel t cv) :: Filter.runIfThens fuel rest cv
termination_by l cv => (fuel, sizeOf l)

/-- Translation of Path::collect (filter.rs lines 445 to 451) with
run_indices interleaved as in try_fold: materialize one part, apply it to
every accumulated value under the optionality flag, and continue. -/
def Filter.pathCollect (fuel : Nat) :
    List (Part Filter × Opt) → Ctx × Val → List Val → Except Jaq.Error (List Val)
  | [], _, acc => .ok acc
  | (p, opt) :: rest, cv, acc =>
    (Filter.runPartIndices fuel p cv).bind fun pm =>
      (optCollect opt (acc.flatMap fun x => partCollectVals pm x)).bind fun acc2 =>
        Filter.pathCollect fuel rest cv acc2
termination_by parts cv acc => (fuel, sizeOf parts)

/-- Translation of path::Part::run_indices (filter.rs lines 459 to 471):
evaluate each index expression of a part and collect it into a list. -/
def Filter.runPartIndices (fuel : Nat) :
    Part Filter → Ctx × Val → Except Jaq.Error (Part (List Val))
  | .Index i, cv => (collectExcept (Filter.run fuel i cv)).map Part.Index
  | .Range lo hi, cv =>
    (Filter.runPartIndicesOpt fuel lo cv).bind fun lom =>
      (Filter.runPartIndicesOpt fuel hi cv).map fun him => Part.Range lom him
termination_by p cv => (fuel, sizeOf p)

/-- Collection of one optional range endpoint of a part. -/
def Filter.runPartIndicesOpt (fuel : Nat) :
    Option Filter → Ctx × Val → Except Jaq.Error (Option (List Val))
  | none, _ => .ok none
  | some f, cv => (collectExcept (Filter.run fuel f cv)).map some
termination_by o cv => (fuel, sizeOf o)

/-- Translation of the run_indices collection of Path::run in update mode
(filter.rs lines 435 to 443): all parts are materialized before the path is
applied. -/
def Filter.pathRunIndices (fuel : Nat) :
    List (Part Filter × Opt) → Ctx × Val → Except Jaq.Error (List (Part (List Val) × Opt))
  | [], _ => .ok []
  | (p, opt) :: rest, cv =>
    (Filter.runPartIndices fuel p cv).bind fun pm =>
      (Filter.pathRunIndices fuel rest cv).map fun pms => (pm, opt) :: pms
termination_by parts cv => (fuel, sizeOf parts)

/-- Precomputed condition streams and branch update streams for IfThenElse in
update mode: every branch receives the original input value. -/
def Filter.updateIfThens (fuel : Nat) :
    List (Filter × Filter) → Ctx × Val → (Val → List ValR) → List (List ValR × List ValR)
  | [], _, _ => []
  | (c, t) :: rest, cv, replace =>
    (Filter.run fuel c cv, Filter.update fuel t cv replace)
      :: Filter.updateIfThens fuel rest cv replace
termination_by l cv replace => (fuel, sizeOf l)

/-- Translation of Filter::update (filter.rs lines 285 to 328).  The todo
panic for nodes that are not valid path expressions is modelled by the bug
error; fuel bounds the recursion depth of Recurse, whose update is the
expansion of recurse(l) as dot followed by l piped into recurse(l). -/
def Filter.update (fuel : Nat) : Filter → Ctx × Val → (Val → List ValR) → List ValR
  | .Id, cv, replace => replace cv.2
  | .Path l parts, cv, replace =>
    Filter.update fuel l cv fun v =>
      match Filter.pathRunIndices fuel parts (cv.1, v) with
      | .ok pms => partsUpdate pms v replace
      | .error e => [.error e]
  | .Pipe l false r, cv, replace =>
    Filter.update fuel l cv fun v => Filter.update fuel r (cv.1, v) replace
  | .Pipe l true r, cv, replace =>
    (Filter.run fuel l cv).flatMap (bindStep fun y =>
      Filter.update fuel r (.cons y cv.1, cv.2) replace)
  | .Comma l r, cv, replace =>
    (Filter.update fuel l cv replace).flatMap (bindStep fun v =>
      Filter.update fuel r (cv.1, v) replace)
  | .IfThenElse ifThens els, cv, replace =>
    iteGo (Filter.updateIfThens fuel ifThens cv replace)
      (Filter.update fuel els cv replace)
  | .Recurse l, cv, replace =>
    match fuel with
    | 0 => []
    | n + 1 =>
      (replace cv.2).flatMap (bindStep fun v =>
        Filter.update (n + 1) l (cv.1, v) fun w =>
          Filter.update n (.Recurse l) (cv.1, w) replace)
  | .Empty, cv, _ => [.ok cv.2]
  | _, _, _ => [.error .bug]
termination_by f cv replace => (fuel, sizeOf f)

end

mutual

/-- Variant interpreter for the Arg-unreachability statement of C8: identical to Filter.run except that the Arg case defers to the given argSem instead of the modelled panic.  Arg-freedom makes the output independent of argSem, which is the extensional content of the Arg panic branch being unreachable. -/
def Filter.runA (argSem : Ctx × Val → List ValR) (fuel : Nat) : Filter → Ctx × Val → List ValR
  | .Id, cv => [.ok cv.2]
  | .Int n, _ => [.ok (.Int n)]
  | .Float x, _ => [.ok (.Float x)]
  | .Str s, _ => [.ok (.Str s)]
  | .Array none, _ => [.ok (.Arr [])]
  | .Array (some f), cv => [(collectExcept (Filter.runA argSem fuel f cv)).map Val.Arr]
  | .Object kvs, cv =>
    if kvs.isEmpty then [.ok (.Obj [])]
    else
      (multiCartesian (Filter.runPairsCartA argSem fuel kvs cv)).map fun comb =>
        (collectExcept (comb.map objEntry)).map Val.Obj
  | .Try f, cv =>
    (Filter.runA argSem fuel f cv).filter fun y =>
      match y with
      | .ok _ => true
      | .error _ => false
  | .Neg f, cv => (Filter.runA argSem fuel f cv).map fun v => v.bind neg_val
  | .Pipe l false r, cv =>
    (Filter.runA argSem fuel l cv).flatMap (bindStep fun y => Filter.runA argSem fuel r (cv.1, y))
  | .Pipe l true r, cv =>
    (Filter.runA argSem fuel l cv).flatMap (bindStep fun y => Filter.runA argSem fuel r (.cons y cv.1, cv.2))
  | .Comma l r, cv => Filter.runA argSem fuel l cv ++ Filter.runA argSem fuel r cv
  | .Alt l r, cv =>
    match (Filter.runA argSem fuel l cv).filter altKeep with
    | [] => Filter.runA argSem fuel r cv
    | h :: t => h :: t
  | .IfThenElse ifThens els, cv =>
    iteGo (Filter.runIfThensA argSem fuel ifThens cv) (Filter.runA argSem fuel els cv)
  | .Path f parts, cv =>
    match (collectExcept (Filter.runA argSem fuel f cv)).bind
        (fun init => Filter.pathCollectA argSem fuel parts cv init) with
    | .ok ys => ys.map Except.ok
    | .error e => [.error e]
  | .Assign pathf f, cv =>
    Filter.updateA argSem fuel pathf cv fun _ => Filter.runA argSem fuel f cv
  | .Update pathf f, cv =>
    Filter.updateA argSem fuel pathf cv fun v => Filter.runA argSem fuel f (cv.1, v)
  | .Logic l stop r, cv =>
    (Filter.runA argSem fuel l cv).flatMap fun x =>
      match x with
      | .error e => [.error e]
      | .ok lv =>
        if as_bool lv = stop then [.ok (.Bool stop)]
        else (Filter.runA argSem fuel r cv).map fun rr => rr.map fun w => .Bool (as_bool w)
  | .Math l op r, cv =>
    (cartesianOf (Filter.runA argSem fuel l cv) (Filter.runA argSem fuel r cv)).map fun xy => do
      MathOp.run op (← xy.1) (← xy.2)
  | .Ord l op r, cv =>
    (cartesianOf (Filter.runA argSem fuel l cv) (Filter.runA argSem fuel r cv)).map fun xy => do
      pure (Val.Bool (OrdOp.run op (← xy.1) (← xy.2)))
  | .Empty, _ => []
  | .Error, cv => [.error (.Val cv.2)]
  | .Length, cv => [len_val cv.2]
  | .Floor, cv => [round_val cv.2]
  | .Round, cv => [round_val cv.2]
  | .Ceil, cv => [round_val cv.2]
  | .FromJson, cv => [from_json cv.2]
  | .ToJson, cv => [.ok (.Str (to_json cv.2))]
  | .Keys, cv => [(keys_val cv.2).map Val.Arr]
  | .Explode, cv => [(explode_val cv.2).map Val.Arr]
  | .Implode, cv => [(implode_val cv.2).map Val.Str]
  | .AsciiDowncase, cv => [mutate_str asciiLower cv.2]
  | .AsciiUpcase, cv => [mutate_str asciiUpper cv.2]
  | .Reverse, cv => [mutate_arr List.reverse cv.2]
  | .Sort', cv => [mutate_arr (sortByStable valLe) cv.2]
  | .SortBy f, cv => [sort_by_val (fun v => Filter.runA argSem fuel f (cv.1, v)) cv.2]
  | .Has f, cv =>
    (Filter.runA argSem fuel f cv).map fun k => do
      pure (Val.Bool (← has_val cv.2 (← k)))
  | .Contains f, cv =>
    (Filter.runA argSem fuel f cv).map fun y => do
      pure (Val.Bool (contains_val cv.2 (← y)))
  | .Split f, cv =>
    (Filter.runA argSem fuel f cv).map fun sep => do
      pure (Val.Arr (← split_val cv.2 (← sep)))
  | .First f, cv => (Filter.runA argSem fuel f cv).take 1
  | .Last f, cv =>
    match tryFold (fun _ x => x.map some) none (Filter.runA argSem fuel f cv) with
    | .ok (some v) => [.ok v]
    | .ok none => []
    | .error e => [.error e]
  | .Limit n f, cv =>
    ((Filter.runA argSem fuel n cv).map fun m => m.bind as_int).flatMap fun m =>
      match m with
      | .ok k => (Filter.runA argSem fuel f cv).take (max 0 k).toNat
      | .error e => [.error e]
  | .Range lo hi, cv =>
    ((cartesianOf (Filter.runA argSem fuel lo cv) (Filter.runA argSem fuel hi cv)).map fun xy => do
      pure ((← as_int (← xy.1)), (← as_int (← xy.2)))).flatMap fun pr =>
      match pr with
      | .ok (l, u) => (List.range (u - l).toNat).map fun i => .ok (.Int (l + i))
      | .error e => [.error e]
  | .Recurse f, cv =>
    recurseEmit (fun w => Filter.runA argSem fuel f (cv.1, w)) fuel [.ok cv.2]
  | .Reduce xs init f, cv =>
    match (collectExcept (Filter.runA argSem fuel init cv)).bind (fun i =>
        tryFold (fun acc x => x.bind fun xv =>
          collectExcept (acc.flatMap fun a => Filter.runA argSem fuel f (.cons xv cv.1, a))) i
          (Filter.runA argSem fuel xs cv)) with
    | .ok ys => ys.map Except.ok
    | .error e => [.error e]
  | .SkipCtx n f, cv => Filter.runA argSem fuel f (Ctx.skip n cv.1, cv.2)
  | .Var n, cv => [.ok ((Ctx.get n cv.1).getD .Null)]
  | .Arg _, cv => argSem cv
termination_by f cv => (fuel, sizeOf f)

/-- Variant of the corresponding evaluator helper, with argSem threaded through. -/
def Filter.runPairsCartA (argSem : Ctx × Val → List ValR) (fuel : Nat) :
    List (Filter × Filter) → Ctx × Val → List (List (ValR × ValR))
  | [], _ => []
  | (kf, vf) :: rest, cv =>
    cartesianOf (Filter.runA argSem fuel kf cv) (Filter.runA argSem fuel vf cv)
      :: Filter.runPairsCartA argSem fuel rest cv
termination_by l cv => (fuel, sizeOf l)

/-- Variant of the corresponding evaluator helper, with argSem threaded through. -/
def Filter.runIfThensA (argSem : Ctx × Val → List ValR) (fuel : Nat) :
    List (Filter × Filter) → Ctx × Val → List (List ValR × List ValR)
  | [], _ => []
  | (c, t) :: rest, cv =>
    (Filter.runA argSem fuel c cv, Filter.runA argSem fuel t cv) :: Filter.runIfThensA argSem fuel rest cv
termination_by l cv => (fuel, sizeOf l)

/-- Variant of the corresponding evaluator helper, with argSem threaded through. -/
def Filter.pathCollectA (argSem : Ctx × Val → List ValR) (fuel : Nat) :
    List (Part Filter × Opt) → Ctx × Val → List Val → Except Jaq.Error (List Val)
  | [], _, acc => .ok acc
  | (p, opt) :: rest, cv, acc =>
    (Filter.runPartIndicesA argSem fuel p cv).bind fun pm =>
      (optCollect opt (acc.flatMap fun x => partCollectVals pm x)).bind fun acc2 =>
        Filter.pathCollectA argSem fuel rest cv acc2
termination_by parts cv acc => (fuel, sizeOf parts)

/-- Variant of the corresponding evaluator helper, with argSem threaded through. -/
def Filter.runPartIndicesA (argSem : Ctx × Val → List ValR) (fuel : Nat) :
    Part Filter → Ctx × Val → Except Jaq.Error (Part (List Val))
  | .Index i, cv => (collectExcept (Filter.runA argSem fuel i cv)).map Part.Index
  | .Range lo hi, cv =>
    (Filter.runPartIndicesOptA argSem fuel lo cv).bind fun lom =>
      (Filter.runPartIndicesOptA argSem fuel hi cv).map fun him => Part.Range lom him
termination_by p cv => (fuel, sizeOf p)

/-- Variant of the corresponding evaluator helper, with argSem threaded through. -/
def Filter.runPartIndicesOptA (argSem : Ctx × Val → List ValR) (fuel : Nat) :
    Option Filter → Ctx × Val → Except Jaq.Error (Option (List Val))
  | none, _ => .ok none
  | some f, cv => (collectExcept (Filter.runA argSem fuel f cv)).map some
termination_by o cv => (fuel, sizeOf o)

/-- Variant of the corresponding evaluator helper, with argSem threaded through. -/
def Filter.pathRunIndicesA (argSem : Ctx × Val → List ValR) (fuel : Nat) :
    List (Part Filter × Opt) → Ctx × Val → Except Jaq.Error (List (Part (List Val) × Opt))
  | [], _ => .ok []
  | (p, opt) :: rest, cv =>
    (Filter.runPartIndicesA argSem fuel p cv).bind fun pm =>
      (Filter.pathRunIndicesA argSem fuel rest cv).map fun pms => (pm, opt) :: pms
termination_by parts cv => (fuel, sizeOf parts)

/-- Variant of the corresponding evaluator helper, with argSem threaded through. -/
def Filter.updateIfThensA (argSem : Ctx × Val → List ValR) (fuel : Nat) :
    List (Filter × Filter) → Ctx × Val → (Val → List ValR) → List (List ValR × List ValR)
  | [], _, _ => []
  | (c, t) :: rest, cv, replace =>
    (Filter.runA argSem fuel c cv, Filter.updateA argSem fuel t cv replace)
      :: Filter.updateIfThensA argSem fuel rest cv replace
termination_by l cv replace => (fuel, sizeOf l)

/-- Variant of Filter.update for the Arg-unreachability statement, differing from it only through the Arg case of the run variant. -/
def Filter.updateA (argSem : Ctx × Val → List ValR) (fuel : Nat) : Filter → Ctx × Val → (Val → List ValR) → List ValR
  | .Id, cv, replace => replace cv.2
  | .Path l parts, cv, replace =>
    Filter.updateA argSem fuel l cv fun v =>
      match Filter.pathRunIndicesA argSem fuel parts (cv.1, v) with
      | .ok pms => partsUpdate pms v replace
      | .error e => [.error e]
  | .Pipe l false r, cv, replace =>
    Filter.updateA argSem fuel l cv fun v => Filter.updateA argSem fuel r (cv.1, v) replace
  | .Pipe l true r, cv, replace =>
    (Filter.runA argSem fuel l cv).flatMap (bindStep fun y =>
      Filter.updateA argSem fuel r (.cons y cv.1, cv.2) replace)
  | .Comma l r, cv, replace =>
    (Filter.updateA argSem fuel l cv replace).flatMap (bindStep fun v =>
      Filter.updateA argSem fuel r (cv.1, v) replace)
  | .IfThenElse ifThens els, cv, replace =>
    iteGo (Filter.updateIfThensA argSem fuel ifThens cv replace)
      (Filter.updateA argSem fuel els cv replace)
  | .Recurse l, cv, replace =>
    match fuel with
    | 0 => []
    | n + 1 =>
      (replace cv.2).flatMap (bindStep fun v =>
        Filter.updateA argSem (n + 1) l (cv.1, v) fun w =>
          Filter.updateA argSem n (.Recurse l) (cv.1, w) replace)
  | .Empty, cv, _ => [.ok cv.2]
  | _, _, _ => [.error .bug]
termination_by f cv replace => (fuel, sizeOf f)

end


set_option maxHeartbeats 2000000 in
theorem runA_eq_run (argSem : Ctx × Val → List ValR) :
    (∀ fuel f cv, Filter.hasArg f = false →
        Filter.runA argSem fuel f cv = Filter.run fuel f cv)
    ∧ (∀ fuel f cv replace, Filter.hasArg f = false →
        Filter.updateA argSem fuel f cv replace = Filter.update fuel f cv replace)
    ∧ (∀ fuel l cv replace, Filter.hasArgPairs l = false →
        Filter.updateIfThensA argSem fuel l cv replace = Filter.updateIfThens fuel l cv replace)
    ∧ (∀ fuel parts cv, Filter.hasArgParts parts = false →
        Filter.pathRunIndicesA argSem fuel parts cv = Filter.pathRunIndices fuel parts cv)
    ∧ (∀ fuel p cv, Filter.hasArgPart p = false →
        Filter.runPartIndicesA argSem fuel p cv = Filter.runPartIndices fuel p cv)
    ∧ (∀ fuel o cv, Filter.hasArgOpt o = false →
        Filter.runPartIndicesOptA argSem fuel o cv = Filter.runPartIndicesOpt fuel o cv)
    ∧ (∀ fuel parts cv acc, Filter.hasArgParts parts = false →
        Filter.pathCollectA argSem fuel parts cv acc = Filter.pathCollect fuel parts cv acc)
    ∧ (∀ fuel l cv, Filter.hasArgPairs l = false →
        Filter.runIfThensA argSem fuel l cv = Filter.runIfThens fuel l cv)
    ∧ (∀ fuel l cv, Filter.hasArgPairs l = false →
        Filter.runPairsCartA argSem fuel l cv = Filter.runPairsCart fuel l cv) := by
  apply Filter.run.mutual_induct <;> intros <;>
    simp_all [Filter.runA, Filter.run, Filter.updateA, Filter.update,
      Filter.updateIfThensA, Filter.updateIfThens, Filter.pathRunIndicesA,
      Filter.pathRunIndices, Filter.runPartIndicesA, Filter.runPartIndices,
      Filter.runPartIndicesOptA, Filter.runPartIndicesOpt, Filter.pathCollectA,
      Filter.pathCollect, Filter.runIfThensA, Filter.runIfThens,
      Filter.runPairsCartA, Filter.runPairsCart, Filter.hasArg,
      Filter.hasArgPairs, Filter.hasArgParts, Filter.hasArgPart, Filter.hasArgOpt]

/-- C8: subst(filter, args) replaces every Arg(i) node by args[i] and leaves
Id, literals, Var(n) and all zero-arity intrinsics unchanged, recursing into
compound nodes; when args covers every placeholder index of the filter and
the args themselves are Arg-free, the substituted filter contains no Arg
node, and evaluating it can never reach the Arg panic branch of run: its
output is independent of the semantics installed in the Arg case, proved by
equality with the variant interpreter runA for every choice of argSem. -/
theorem claim_C8_subst_total (f : Filter) (args : List Filter)
    (hcov : Filter.argsBelow args.length f = true)
    (hclean : ∀ g ∈ args, Filter.hasArg g = false) :
    Filter.hasArg (Filter.subst args f) = false
    ∧ (∀ fuel cv argSem, Filter.runA argSem fuel (Filter.subst args f) cv
        = Filter.run fuel (Filter.subst args f) cv)
    ∧ (∀ i (hi : i < args.length), Filter.subst args (.Arg i) = args.get ⟨i, hi⟩)
    ∧ Filter.subst args .Id = .Id
    ∧ (∀ n : Int, Filter.subst args (.Int n) = .Int n)
    ∧ (∀ x : Int, Filter.subst args (.Float x) = .Float x)
    ∧ (∀ s, Filter.subst args (.Str s) = .Str s)
    ∧ (∀ n, Filter.subst args (.Var n) = .Var n)
    ∧ [Filter.Empty, .Error, .Length, .Floor, .Round, .Ceil, .FromJson, .ToJson,
        .Keys, .Explode, .Implode, .AsciiDowncase, .AsciiUpcase, .Reverse,
        .Sort'].map (Filter.subst args)
      = [Filter.Empty, .Error, .Length, .Floor, .Round, .Ceil, .FromJson, .ToJson,
        .Keys, .Explode, .Implode, .AsciiDowncase, .AsciiUpcase, .Reverse,
        .Sort'] := by
  have hfree := (substArgFree_mutual args hclean).1 f hcov
  refine ⟨hfree, fun fuel cv argSem => (runA_eq_run argSem).1 fuel _ cv hfree,
    ?_, ?_, ?_, ?_, ?_, ?_, ?_⟩
  · intro i hi
    rw [Filter.subst, getD_eq_get args .Id i hi]
  all_goals simp [Filter.subst]

/-- Witness for C8 at the filter Arg(0) | Arg(0) with argument list [Id]:
the substituted filter is Arg-free and its evaluation agrees with the
variant interpreter at a concrete argSem. -/
theorem claim_C8_witness :
    Filter.hasArg (Filter.subst [Filter.Id] (Filter.Pipe (.Arg 0) false (.Arg 0))) = false
    ∧ Filter.runA (fun _ => []) 1
        (Filter.subst [Filter.Id] (Filter.Pipe (.Arg 0) false (.Arg 0))) (Ctx.nil, .Null)
      = Filter.run 1
        (Filter.subst [Filter.Id] (Filter.Pipe (.Arg 0) false (.Arg 0))) (Ctx.nil, .Null) :=
  ⟨(claim_C8_subst_total (Filter.Pipe (.Arg 0) false (.Arg 0)) [Filter.Id]
    (by simp [Filter.argsBelow])
    (by
      intro g hg
      rw [List.mem_singleton] at hg
      rw [hg, Filter.hasArg])).1,
   (claim_C8_subst_total (Filter.Pipe (.Arg 0) false (.Arg 0)) [Filter.Id]
    (by simp [Filter.argsBelow])
    (by
      intro g hg
      rw [List.mem_singleton] at hg
      rw [hg, Filter.hasArg])).2.1 1 (Ctx.nil, .Null) (fun _ => [])⟩

/-- C9: in update mode, Empty passes the value through unchanged as the
single output Ok(v) for every replacement closure, so the closure is never
consulted, whereas in run mode Empty yields the empty sequence. -/
theorem claim_C9_update_empty (fuel : Nat) (cv : Ctx × Val) (replace : Val → List ValR) :
    Filter.update fuel .Empty cv replace = [.ok cv.2]
    ∧ Filter.run fuel .Empty cv = [] := by
  constructor
  · rw [Filter.update]
  · rw [Filter.run]

/-- C10: running Object with an empty pair list yields exactly one Ok result,
the empty object, through the dedicated branch; the general multi-way
cartesian product branch over zero pair streams would give the empty output
stream instead. -/
theorem claim_C10_empty_object (fuel : Nat) (cv : Ctx × Val) :
    Filter.run fuel (.Object []) cv = [.ok (.Obj [])]
    ∧ (multiCartesian (Filter.runPairsCart fuel [] cv)).map (fun comb =>
        (collectExcept (comb.map objEntry)).map Val.Obj) = [] := by
  constructor
  · rw [Filter.run]
    rfl
  · rw [Filter.runPairsCart]
    rfl

/-- C5: comma distributes over pipe; running (a, b) | c equals the
concatenation of the results of a | c and b | c on the same input. -/
theorem claim_C5_comma_pipe (fuel : Nat) (a b c : Filter) (cv : Ctx × Val) :
    Filter.run fuel (.Pipe (.Comma a b) false c) cv
      = Filter.run fuel (.Pipe a false c) cv ++ Filter.run fuel (.Pipe b false c) cv := by
  simp [Filter.run]

/-- C2: run(Alt(l, r)) is the subsequence of run(l) that keeps Err elements
and truthy Ok values whenever that subsequence is nonempty, and is run(r) on
the original input exactly when that subsequence is empty; in particular
every error of l is kept as an output and never causes fall-through to r. -/
theorem claim_C2_alt (fuel : Nat) (l r : Filter) (cv : Ctx × Val) :
    (Filter.run fuel (.Alt l r) cv
      = if ((Filter.run fuel l cv).filter altKeep).isEmpty
        then Filter.run fuel r cv
        else (Filter.run fuel l cv).filter altKeep)
    ∧ (∀ e, .error e ∈ Filter.run fuel l cv → .error e ∈ Filter.run fuel (.Alt l r) cv) := by
  have hrun : Filter.run fuel (.Alt l r) cv
      = match (Filter.run fuel l cv).filter altKeep with
        | [] => Filter.run fuel r cv
        | h :: t => h :: t := by
    rw [Filter.run]
  constructor
  · rw [hrun]
    cases h : (Filter.run fuel l cv).filter altKeep <;> simp [h]
  · intro e he
    have hmem : Except.error e ∈ (Filter.run fuel l cv).filter altKeep :=
      List.mem_filter.mpr ⟨he, rfl⟩
    rw [hrun]
    cases h : (Filter.run fuel l cv).filter altKeep with
    | nil => rw [h] at hmem; cases hmem
    | cons hd tl => rw [h] at hmem; exact hmem

/-- Witness for C2: the error produced by the Error filter on the left of Alt
is kept in the output. -/
theorem claim_C2_witness :
    Except.error (Error.Val Val.Null) ∈ Filter.run 1 (.Alt .Error .Id) (Ctx.nil, .Null) :=
  (claim_C2_alt 1 .Error .Id (Ctx.nil, .Null)).2 (Error.Val Val.Null)
    (by simp [Filter.run])

theorem cartesianOf_singleton (l r : List ValR) (h : r.length = 1) :
    cartesianOf l r = cartesianProduct l r := by
  match r, h with
  | [y], _ =>
    unfold cartesianOf cartesianProduct
    simp
    induction l with
    | nil => rfl
    | cons x xs ih => simpa using ih

theorem pipeBindFast_eq (step : Val → List ValR) (l : List ValR) (h : l.length ≤ 1) :
    pipeBindFast step l = l.flatMap (bindStep step) := by
  match l, h with
  | [], _ => rfl
  | [y], _ => simp [pipeBindFast]

/-- C3: the two fast paths are semantics-preserving: when the collected right
stream of a binary operator has exactly one element, the special pairing
branch of Filter::cartesian equals the general cartesian product, and when
the left stream of a binding pipe is known to hold at most one element, the
direct consumption branch equals the general flat_map branch. -/
theorem claim_C3_fast_paths (fuel : Nat) (l r rf : Filter) (ctx : Ctx) (v : Val) :
    ((Filter.run fuel r (ctx, v)).length = 1 →
      cartesianOf (Filter.run fuel l (ctx, v)) (Filter.run fuel r (ctx, v))
        = cartesianProduct (Filter.run fuel l (ctx, v)) (Filter.run fuel r (ctx, v)))
    ∧ ((Filter.run fuel l (ctx, v)).length ≤ 1 →
      pipeBindFast (fun y => Filter.run fuel rf (.cons y ctx, v)) (Filter.run fuel l (ctx, v))
        = (Filter.run fuel l (ctx, v)).flatMap
            (bindStep fun y => Filter.run fuel rf (.cons y ctx, v))) :=
  ⟨cartesianOf_singleton _ _, pipeBindFast_eq _ _⟩

/-- Witness for C3 with identity filters: the right side yields one value and
the left side yields at most one value. -/
theorem claim_C3_witness :
    cartesianOf (Filter.run 1 .Id (Ctx.nil, .Null)) (Filter.run 1 .Id (Ctx.nil, .Null))
      = cartesianProduct (Filter.run 1 .Id (Ctx.nil, .Null)) (Filter.run 1 .Id (Ctx.nil, .Null))
    ∧ pipeBindFast (fun y => Filter.run 1 .Id (.cons y Ctx.nil, .Null))
        (Filter.run 1 .Id (Ctx.nil, .Null))
      = (Filter.run 1 .Id (Ctx.nil, .Null)).flatMap
          (bindStep fun y => Filter.run 1 .Id (.cons y Ctx.nil, .Null)) :=
  ⟨(claim_C3_fast_paths 1 .Id .Id .Id Ctx.nil .Null).1 (by simp [Filter.run]),
   (claim_C3_fast_paths 1 .Id .Id .Id Ctx.nil .Null).2 (by simp [Filter.run])⟩

/-- Specification-side behaviour of one Limit element (section 4.1): an
error from n or from its integer coercion becomes one error, and an integer
k yields the first max(0, k) elements of the body stream. -/
def limitSpec (body : List ValR) : Except Error Int → List ValR
  | .error e => [.error e]
  | .ok k => body.take (max 0 k).toNat

/-- C6: Limit(n, f) yields, for each output of n coerced to an integer k, the
first max(0, k) elements of the body stream on the same input, one error per
error of n or of the coercion; the emitted segment never exceeds k elements
and is empty for negative k. -/
theorem claim_C6_limit (fuel : Nat) (n f : Filter) (cv : Ctx × Val) :
    (Filter.run fuel (.Limit n f) cv
      = (Filter.run fuel n cv).flatMap fun m =>
          limitSpec (Filter.run fuel f cv) (m.bind as_int))
    ∧ (∀ k : Int, (limitSpec (Filter.run fuel f cv) (.ok k)).length ≤ k.toNat)
    ∧ (∀ k : Int, k < 0 → limitSpec (Filter.run fuel f cv) (.ok k) = []) := by
  refine ⟨?_, ?_, ?_⟩
  · rw [Filter.run]
    induction Filter.run fuel n cv with
    | nil => rfl
    | cons x xs ih =>
      simp only [List.map_cons, List.flatMap_cons, ih]
      congr 1
      cases Except.bind x as_int <;> rfl
  · intro k
    have hmax : (max 0 k).toNat = k.toNat := by omega
    simp [limitSpec, hmax, List.length_take]
  · intro k hk
    have hmax : (max 0 k).toNat = 0 := by omega
    simp [limitSpec, hmax]

/-- Witness for C6 at limit(-1) of identity: the bound and emptiness at a
negative count. -/
theorem claim_C6_witness :
    (limitSpec (Filter.run 1 .Id (Ctx.nil, .Null)) (.ok (-1))).length ≤ (-1 : Int).toNat
    ∧ limitSpec (Filter.run 1 .Id (Ctx.nil, .Null)) (.ok (-1)) = [] :=
  ⟨(claim_C6_limit 1 (.Int (-1)) .Id (Ctx.nil, .Null)).2.1 (-1),
   (claim_C6_limit 1 (.Int (-1)) .Id (Ctx.nil, .Null)).2.2 (-1) (by decide)⟩

/-- Specification-side fold of Reduce (section 4.1): for each element of the
xs stream in order, the accumulator list is replaced by the collected
concatenation of the closure outputs over each accumulator element; an error
in the stream or in a closure output aborts with that error. -/
def reduceSpec (app : Val → Val → List ValR) :
    List Val → List ValR → Except Error (List Val)
  | acc, [] => .ok acc
  | _, .error e :: _ => .error e
  | acc, .ok x :: rest =>
    match collectExcept (acc.flatMap fun a => app x a) with
    | .error e => .error e
    | .ok acc2 => reduceSpec app acc2 rest

theorem tryFold_reduceSpec (app : Val → Val → List ValR) (l : List ValR) :
    ∀ acc, tryFold (fun acc x => x.bind fun xv =>
        collectExcept (acc.flatMap fun a => app xv a)) acc l
      = reduceSpec app acc l := by
  induction l with
  | nil => intro acc; rfl
  | cons x rest ih =>
    intro acc
    cases x with
    | error e => rfl
    | ok xv =>
      rw [tryFold, reduceSpec]
      simp only [Except.bind]
      cases collectExcept (acc.flatMap fun a => app xv a) with
      | error e => rfl
      | ok acc2 => exact ih acc2

/-- C4: Reduce(xs, init, f) collects the init stream into a list, then folds
the xs stream over it, replacing the accumulator by the collected
concatenation of f run under the extended context on each accumulator
element, and finally yields every element of the final list; any error in
init, xs or an f application makes the whole result exactly that single
error. -/
theorem claim_C4_reduce (fuel : Nat) (xs init f : Filter) (cv : Ctx × Val) :
    Filter.run fuel (.Reduce xs init f) cv
      = match (collectExcept (Filter.run fuel init cv)).bind (fun acc0 =>
            reduceSpec (fun x a => Filter.run fuel f (.cons x cv.1, a)) acc0
              (Filter.run fuel xs cv)) with
        | .ok ys => ys.map Except.ok
        | .error e => [.error e] := by
  rw [Filter.run]
  have h := tryFold_reduceSpec (fun x a => Filter.run fuel f (.cons x cv.1, a))
    (Filter.run fuel xs cv)
  simp only [h]

theorem recurseEmit_preorder (children : Val → List ValR) :
    ∀ (n : Nat) (vals : List ValR),
      recurseEmit children n vals = preorderTake children n vals.reverse := by
  intro n
  induction n with
  | zero => intro vals; rfl
  | succ n ih =>
    intro vals
    rcases List.eq_nil_or_concat vals with h | ⟨L, b, h⟩
    · subst h; rfl
    · subst h
      cases b with
      | ok w =>
        rw [recurseEmit, recurseStep]
        simp only [List.concat_eq_append, List.getLast?_concat, List.dropLast_concat,
          List.reverse_append, List.reverse_cons, List.reverse_nil, List.nil_append,
          List.singleton_append]
        rw [preorderTake, ih]
        simp [List.reverse_append]
      | error e =>
        rw [recurseEmit, recurseStep]
        simp only [List.concat_eq_append, List.getLast?_concat, List.dropLast_concat,
          List.reverse_append, List.reverse_cons, List.reverse_nil, List.nil_append,
          List.singleton_append]
        rw [preorderTake, ih]

/-- C1: the Recurse stream is the preorder traversal of the forest induced by
the child filter: the whole truncated stream equals the truncated preorder
traversal starting at the seed, the first element is Ok(v), an Err node is
emitted in place with nothing recursed into it, and after an Ok node the
children stream of f is visited next, its first output first. -/
theorem claim_C1_recurse_preorder (fuel : Nat) (f : Filter) (ctx : Ctx) (v : Val) :
    (Filter.run fuel (.Recurse f) (ctx, v)
      = preorderTake (fun w => Filter.run fuel f (ctx, w)) fuel [.ok v])
    ∧ (Filter.run (fuel + 1) (.Recurse f) (ctx, v)).head? = some (.ok v)
    ∧ (∀ e rest n, preorderTake (fun w => Filter.run fuel f (ctx, w)) (n + 1)
          (.error e :: rest)
        = .error e :: preorderTake (fun w => Filter.run fuel f (ctx, w)) n rest)
    ∧ (∀ w rest n, preorderTake (fun u => Filter.run fuel f (ctx, u)) (n + 1)
          (.ok w :: rest)
        = .ok w :: preorderTake (fun u => Filter.run fuel f (ctx, u)) n
            (Filter.run fuel f (ctx, w) ++ rest)) := by
  refine ⟨?_, ?_, fun e rest n => rfl, fun w rest n => rfl⟩
  · rw [Filter.run, recurseEmit_preorder]
    rfl
  · rw [Filter.run, recurseEmit, recurseStep]
    rfl

end Jaq
